import Mathlib

/-!
Verification model of the Agentic Investment Advisor's two core components:

* `RiskAssessmentAgent.assess_universe` (agents/risk_assessment_agent.py), embedded
  below as `assess_universe`;
* `PortfolioGeneratorAgent.generate_portfolio` (agents/portfolio_generator_agent.py),
  embedded below as `generate_portfolio`.

Modelling conventions:

* Python floats are idealized as exact rationals (`ℚ`); float NaN is modelled as
  `none` in an `Option ℚ` cell.  `Python round(x, k)` (round half to even) is
  embedded exactly as `round2` / `round6`.
* A pandas `DataFrame` of prices (dates × tickers) is a `PriceTable`: a list of
  column labels plus a list of rows, each row a list of optional cells.
* The source computes the annualized volatility `returns.std() * np.sqrt(252)`.
  Since `Real.sqrt` is strictly monotone on nonnegatives, the map
  `v ↦ sqrt (252 * v)` preserves order, ties and the sign condition `≤ 0 / > 0`;
  we therefore embed the *square* of the source's volatility,
  `annVolSq = 252 * sampleVariance`, which determines the source value uniquely
  and order-isomorphically (see `sqrt_le_sqrt_iff_of_nonneg` and
  `sqrt_eq_sqrt_iff_of_nonneg` below).  Every use of volatility in the two
  components (ascending ranking, tie handling, the nonpositivity test
  `vols <= 0`, and proportional weighting) is order- or sign-determined, except
  the numeric magnitude of the proportional weights in the `high` branch when
  the volatility series was recomputed from prices; no claim depends on those
  magnitudes.
* Division by zero inside pandas produces `inf`/NaN; the model maps both to
  `none` (NaN).  The distinction is observable only for price tables containing
  zero or negative prices, which no claim depends on.
-/

/-- Python `round(q)`: round to the nearest integer, half to even.
(`Rat.floor` is used rather than `⌊⌋` so that the kernel can evaluate it;
`ratFloor_eq_intFloor` below identifies the two.) -/
def roundHalfEven (q : ℚ) : ℤ :=
  if q - q.floor < 1/2 then q.floor
  else if 1/2 < q - q.floor then q.floor + 1
  else if q.floor % 2 = 0 then q.floor else q.floor + 1

/-- Python `round(q, 2)`: round to cents. -/
def round2 (q : ℚ) : ℚ := (roundHalfEven (100 * q) : ℚ) / 100

/-- Python `round(q, 6)`: round to 6 decimal places (used for weights). -/
def round6 (q : ℚ) : ℚ := (roundHalfEven (1000000 * q) : ℚ) / 1000000

/-- Arithmetic mean (`Series.mean`); `0` on the empty list (the source never
takes a mean it uses on an empty list). -/
def listMean (xs : List ℚ) : ℚ := xs.sum / (xs.length : ℚ)

/-- Sample variance with `ddof = 1` (the pandas `std` default, squared).  Only
ever used behind a guard `2 ≤ xs.length`. -/
def sampleVar (xs : List ℚ) : ℚ :=
  ((xs.map (fun x => (x - listMean xs) ^ 2)).sum) / ((xs.length : ℚ) - 1)

/-- Minimum of a list (`Series.min` with all-NaN giving NaN handled by callers). -/
def listMin : List ℚ → Option ℚ
  | [] => none
  | x :: xs => some (xs.foldl min x)

/-- Maximum of a list (`Series.max`). -/
def listMax : List ℚ → Option ℚ
  | [] => none
  | x :: xs => some (xs.foldl max x)

/-- A pandas DataFrame of prices: dates as rows, tickers as columns.  A cell is
`none` when the float is NaN (missing price). -/
structure PriceTable where
  tickers : List String
  rows : List (List (Option ℚ))
deriving DecidableEq

/-- pandas `DataFrame.empty`: true when either axis has length 0. -/
def PriceTable.isEmpty (df : PriceTable) : Bool :=
  df.rows.isEmpty || df.tickers.isEmpty

/-- Rows all have one cell per ticker (the PriceTable alignment invariant). -/
def PriceTable.Aligned (df : PriceTable) : Prop :=
  ∀ r ∈ df.rows, r.length = df.tickers.length

/-- Column `j` of the table, one optional cell per date. -/
def PriceTable.col (df : PriceTable) (j : ℕ) : List (Option ℚ) :=
  df.rows.map (fun r => r.getD j none)

/-- Every cell of the table is present and positive (a positive-price table). -/
def PriceTable.Positive (df : PriceTable) : Prop :=
  ∀ r ∈ df.rows, ∀ c ∈ r, ∃ q : ℚ, c = some q ∧ 0 < q

/-- Forward fill (pandas `pad`, the historical `pct_change` default fill):
every missing cell takes the most recent present value, if any. -/
def padCol (last : Option ℚ) : List (Option ℚ) → List (Option ℚ)
  | [] => []
  | none :: cs => last :: padCol last cs
  | some v :: cs => some v :: padCol (some v) cs

/-- Consecutive percentage changes of a padded column: entry `t` is
`(p t - p (t-1)) / p (t-1)`.  A missing operand or a zero denominator (float
`inf`/NaN) yields `none`. -/
def pctPairs : List (Option ℚ) → List (Option ℚ)
  | [] => []
  | [_] => []
  | a :: b :: rest =>
    (match a, b with
     | some x, some y => if x = 0 then none else some ((y - x) / x)
     | _, _ => none) :: pctPairs (b :: rest)

/-- One column of `DataFrame.pct_change()`: pad, then consecutive changes, with
`none` (NaN) in the first row. -/
def pctCol (c : List (Option ℚ)) : List (Option ℚ) :=
  if c.isEmpty then [] else none :: pctPairs (padCol none c)

/-- Row `t` survives `DataFrame.dropna()` iff every column has a value there. -/
def keepRow (cols : List (List (Option ℚ))) (t : ℕ) : Bool :=
  cols.all (fun c => (c.getD t none).isSome)

/-- Column `j` after the DataFrame-level `dropna()`: the values of column `j`
at the rows where every column has a value. -/
def cleanCol (cols : List (List (Option ℚ))) (j : ℕ) (nrows : ℕ) : List ℚ :=
  ((List.range nrows).filter (fun t => keepRow cols t)).filterMap
    (fun t => (cols.getD j []).getD t none)

/-- Square of the annualized volatility `returns.std() * np.sqrt(252)` of one
cleaned returns column; `none` models the NaN that `std` (ddof = 1) produces
from fewer than 2 observations. -/
def annVolSq (rets : List ℚ) : Option ℚ :=
  if rets.length < 2 then none else some (252 * sampleVar rets)

/-- Per-ticker volatility (squared embedding, see the header) of a price table:
`prices_df.pct_change().dropna()` per column, then `std() * sqrt(252)`.
Used both by `assess_universe` (risk_assessment_agent.py line 5–6) and by the
fallback of `generate_portfolio` (portfolio_generator_agent.py lines 47–53;
its `except` branch cannot fire in this total model). -/
def volRawOf (df : PriceTable) : List (String × Option ℚ) :=
  let retCols := (List.range df.tickers.length).map (fun j => pctCol (df.col j))
  df.tickers.enum.map (fun jt => (jt.2, annVolSq (cleanCol retCols jt.1 df.rows.length)))

/-- Running maximum (`Series.cummax`) continuing from a seed `m`. -/
def cummaxFrom (m : ℚ) : List ℚ → List ℚ
  | [] => []
  | x :: xs => max m x :: cummaxFrom (max m x) xs

/-- Running maximum (`Series.cummax`). -/
def cummax : List ℚ → List ℚ
  | [] => []
  | x :: xs => x :: cummaxFrom x xs

/-- Maximum drawdown of one price column (risk_assessment_agent.py lines 9–15):
drop missing cells; `0.0` for an empty series; otherwise the minimum of
`(price - rollingMax) / rollingMax`, entries with a zero rolling maximum
(float `inf`/NaN) skipped, `none` (NaN) if no entry remains. -/
def maxDrawdown (c : List (Option ℚ)) : Option ℚ :=
  let s := c.filterMap id
  if s.isEmpty then some 0
  else listMin ((s.zip (cummax s)).filterMap
    (fun pm => if pm.2 = 0 then none else some ((pm.1 - pm.2) / pm.2)))

/-- Number of values strictly below `v` in `vals`. -/
def cntLT (vals : List ℚ) (v : ℚ) : ℕ := List.countP (fun x => decide (x < v)) vals

/-- Number of values equal to `v` in `vals`. -/
def cntEQ (vals : List ℚ) (v : ℚ) : ℕ := List.countP (fun x => decide (x = v)) vals

/-- Ascending rank of `v` among `vals` with the pandas default `average` tie
method: the tie group occupying one-based positions `cntLT+1 … cntLT+cntEQ`
shares the average rank `cntLT + (cntEQ + 1)/2`. -/
def rankAvg (vals : List ℚ) (v : ℚ) : ℚ :=
  (cntLT vals v : ℚ) + ((cntEQ vals v : ℚ) + 1) / 2

/-- The risk report produced by `RiskAssessmentAgent.assess_universe` and
consumed by `generate_portfolio` (which reads only `volatility`).  The three
summary floats may be NaN (`none`) on an empty universe. -/
structure RiskReport where
  volatility : List (String × ℚ)
  drawdown : List (String × Option ℚ)
  risk_score : List (String × ℚ)
  avg_volatility : Option ℚ
  max_volatility : Option ℚ
  min_volatility : Option ℚ
deriving DecidableEq

/-- Model of `RiskAssessmentAgent.assess_universe` (risk_assessment_agent.py
lines 4–28): per-ticker annualized volatility (squared embedding) with NaN
coerced to 0 by `fillna(0)`, per-ticker maximum drawdown, the average-rank
risk score `vol.rank(ascending=True) / len(vol)`, and the summary statistics. -/
def assess_universe (df : PriceTable) : RiskReport :=
  let volRaw := volRawOf df
  let vol : List (String × ℚ) := volRaw.map (fun tv => (tv.1, tv.2.getD 0))
  let dds : List (String × Option ℚ) :=
    df.tickers.enum.map (fun jt => (jt.2, maxDrawdown (df.col jt.1)))
  let vols := vol.map Prod.snd
  { volatility := vol
    drawdown := dds
    risk_score := vol.map (fun tv => (tv.1, rankAvg vols tv.2 / (vol.length : ℚ)))
    avg_volatility := if vols.isEmpty then none else some (listMean vols)
    max_volatility := listMax vols
    min_volatility := listMin vols }

/-- A single holding of the generated portfolio (one entry of `allocation`,
portfolio_generator_agent.py lines 129–135).  `price` is `none` when the last
price was NaN (serialized as null). -/
structure Holding where
  ticker : String
  weight : ℚ
  price : Option ℚ
  shares : ℤ
  allocated : ℚ
deriving DecidableEq

/-- True cost of a holding: `shares * price`, `0` when unpriced.  (The
`allocated` field is this cost rounded to cents.) -/
def Holding.cost (h : Holding) : ℚ := (h.shares : ℚ) * h.price.getD 0

/-- The portfolio dict returned by `generate_portfolio` (lines 36–42, 69–75,
138–144).  `error` is `some msg` exactly in the two degenerate-case returns. -/
structure Portfolio where
  budget : ℚ
  allocated : ℚ
  remaining : ℚ
  holdings : List Holding
  error : Option String
deriving DecidableEq

/-- Diagnostic of the empty/absent-table return (line 41). -/
def msgNoData : String := "No price data available"

/-- Diagnostic of the empty-universe return (line 74). -/
def msgNoTickers : String := "No tickers available after filtering"

def riskLow : String := "low"

def riskHigh : String := "high"

/-- The zero-holding portfolio of the two degenerate returns (lines 36–42 and
69–75): unrounded budget, zero allocated, budget rounded to cents as
remaining, no holdings, and the diagnostic under the `error` key. -/
def errPortfolio (budget : ℚ) (msg : String) : Portfolio :=
  { budget := budget, allocated := 0, remaining := round2 budget,
    holdings := [], error := some msg }

/-- `_sanitize_tickers` (lines 17–25): the tickers of the volatility series
that are also columns of the price table, in volatility-series order. -/
def sanitize_tickers (pricesCols : List String) (volIdx : List String) : List String :=
  volIdx.filter (fun t => pricesCols.contains t)

/-- Lines 44–53: the volatility series. Prefer the report's mapping; when it is
empty, recompute from prices (`pct_change` returns, `std() * sqrt(252)`,
squared embedding — see the header; the `except` equal-vols branch of lines
51–53 cannot fire in this total model). -/
def volSeries (df : PriceTable) (report : RiskReport) : List (String × Option ℚ) :=
  if report.volatility.isEmpty then volRawOf df
  else report.volatility.map (fun tv => (tv.1, some tv.2))

/-- Lines 55–59: the resolved ticker universe — the sanitized intersection, or
all table columns when the intersection is empty. -/
def availableOf (df : PriceTable) (report : RiskReport) : List String :=
  let a := sanitize_tickers df.tickers ((volSeries df report).map Prod.fst)
  if a.isEmpty then df.tickers else a

/-- Lines 60–62: `vol.reindex(available).fillna(0.0)` — one volatility per
resolved ticker, with a missing or NaN entry coerced to 0. -/
def volMap (df : PriceTable) (report : RiskReport) : List (String × ℚ) :=
  (availableOf df report).map
    (fun t => (t, (((volSeries df report).lookup t).join).getD 0))

/-- Ascending-volatility comparison used by `vol.sort_values(ascending=True)`. -/
def volLe (a b : String × ℚ) : Prop := a.2 ≤ b.2

instance : DecidableRel volLe := fun a b => inferInstanceAs (Decidable (a.2 ≤ b.2))

instance : IsTotal (String × ℚ) volLe := ⟨fun a b => le_total a.2 b.2⟩

instance : IsTrans (String × ℚ) volLe := ⟨fun _ _ _ hab hbc => le_trans hab hbc⟩

/-- Line 65: the universe ranked by ascending volatility.  (`sort_values` uses
an unspecified unstable sort; the model fixes a stable insertion sort, which
agrees with it on every sortedness/permutation property used by the claims.) -/
def rankedOf (df : PriceTable) (report : RiskReport) : List (String × ℚ) :=
  List.insertionSort volLe (volMap df report)

/-- The `low` weight vector of lines 81–84: 1.0 for a single holding,
otherwise 0.8 on the lowest-volatility ticker and 0.2/(n-1) on each of the
others. -/
def lowWeights (n : ℕ) : List ℚ :=
  if n = 1 then [1] else (4/5 : ℚ) :: List.replicate (n - 1) ((1/5) / ((n : ℚ) - 1))

/-- Lines 89–91 of the `high` branch: the volatilities of the `n`
highest-volatility tickers with every nonpositive entry replaced by the
epsilon 1e-6. -/
def epsVols (ranked : List (String × ℚ)) (n : ℕ) : List ℚ :=
  ((ranked.drop (ranked.length - n)).map Prod.snd).map
    (fun v => if v ≤ 0 then 1/1000000 else v)

/-- Lines 77–106: ticker selection and pre-normalization weights per risk
level.  `low`: the `n` lowest-volatility tickers, 0.8 on the lowest and
0.2/(n-1) on each other (just 1.0 for n = 1).  `high`: the `n` highest, with
nonpositive volatilities replaced by 1e-6 and weights proportional to
volatility (equal weights if — unreachably — the proportional weights sum to
0).  Anything else (`moderate`): the `n/2` lowest plus the `n - n/2` highest,
equal weights. -/
def chooseWeights (risk_level : String) (ranked : List (String × ℚ)) (n : ℕ) :
    List String × List ℚ :=
  if risk_level = riskLow then
    ((ranked.take n).map Prod.fst, lowWeights n)
  else if risk_level = riskHigh then
    let chosenP := ranked.drop (ranked.length - n)
    let weights := (epsVols ranked n).map (fun v => v / (epsVols ranked n).sum)
    let weights :=
      if weights.sum = 0 then List.replicate chosenP.length ((1 : ℚ) / (chosenP.length : ℚ))
      else weights
    (chosenP.map Prod.fst, weights)
  else
    let low_count := n / 2
    let high_count := n - low_count
    let low := (ranked.take low_count).map Prod.fst
    let high :=
      if 0 < high_count then (ranked.drop (ranked.length - high_count)).map Prod.fst else []
    let chosen := low ++ high
    let chosen := if chosen.isEmpty then (ranked.take n).map Prod.fst else chosen
    (chosen, List.replicate chosen.length ((1 : ℚ) / (chosen.length : ℚ)))

/-- Lines 108–113: final defensive renormalization — divide by the sum, or
substitute equal weights when the sum is 0. -/
def normalizeW (ws : List ℚ) : List ℚ :=
  if ws.sum = 0 then List.replicate ws.length ((1 : ℚ) / (ws.length : ℚ))
  else ws.map (fun w => w / ws.sum)

/-- Lines 115–116: `prices_df.iloc[-1].to_dict()` — ticker to last-row cell. -/
def lastPrices (df : PriceTable) : List (String × Option ℚ) :=
  match df.rows.getLast? with
  | none => []
  | some r => df.tickers.zip r

/-- Last price of a ticker as the loop reads it (line 121): `none` models both
a ticker absent from the last row and a NaN cell. -/
def lastPriceOf (df : PriceTable) (t : String) : Option ℚ :=
  ((lastPrices df).lookup t).join

/-- Lines 120–135, one loop iteration: an unpriceable ticker (missing or
nonpositive last price) gets 0 shares and 0 allocated; otherwise
`shares = floor(budget * w / price)` and `allocated = round2 (shares * price)`.
The stored weight is rounded to 6 decimals. -/
def mkHolding (budget : ℚ) (price? : Option ℚ) (t : String) (w : ℚ) : Holding :=
  match price? with
  | none => { ticker := t, weight := round6 w, price := none, shares := 0, allocated := 0 }
  | some p =>
    if p ≤ 0 then
      { ticker := t, weight := round6 w, price := some p, shares := 0, allocated := 0 }
    else
      { ticker := t, weight := round6 w, price := some p,
        shares := (budget * w / p).floor,
        allocated := round2 (((budget * w / p).floor : ℚ) * p) }

/-- The `(ticker, weight)` pairs fed to the allocation loop (line 120):
chosen tickers zipped with the renormalized weights. -/
def loopPairs (top_n : ℕ) (df : PriceTable) (report : RiskReport)
    (risk_level : String) : List (String × ℚ) :=
  let ranked := rankedOf df report
  let cw := chooseWeights risk_level ranked (min top_n ranked.length)
  cw.1.zip (normalizeW cw.2)

/-- Model of `PortfolioGeneratorAgent.generate_portfolio`
(portfolio_generator_agent.py lines 27–144).  `top_n` is the constructor
parameter (default 5); `prices?` is `none` when the caller passes `None`. -/
def generate_portfolio (top_n : ℕ) (budget : ℚ) (risk_level : String)
    (prices? : Option PriceTable) (report : RiskReport) : Portfolio :=
  match prices? with
  | none => errPortfolio budget msgNoData
  | some df =>
    if df.isEmpty then errPortfolio budget msgNoData
    else if min top_n (rankedOf df report).length = 0 then
      errPortfolio budget msgNoTickers
    else
      let holdings := (loopPairs top_n df report risk_level).map
        (fun tw => mkHolding budget (lastPriceOf df tw.1) tw.1 tw.2)
      let remaining := budget - (holdings.map Holding.allocated).sum
      { budget := round2 budget, allocated := round2 (budget - remaining),
        remaining := round2 remaining, holdings := holdings, error := none }

/-- A rational that is a whole number of cents. -/
def IsCent (q : ℚ) : Prop := ∃ z : ℤ, q = (z : ℚ) / 100

/-- Empty risk report, as produced by an upstream failure. -/
def emptyReport : RiskReport :=
  { volatility := [], drawdown := [], risk_score := [],
    avg_volatility := none, max_volatility := none, min_volatility := none }

/-- Empty price table (no dates, no tickers). -/
def emptyTable : PriceTable := { tickers := [], rows := [] }

/-- Two-ticker, two-date table used to instantiate theorems. -/
def wDf : PriceTable :=
  { tickers := ["A", "B"],
    rows := [[some 10, some 20], [some 10, some 24]] }

/-- Risk report for `wDf` with integer volatilities 1 and 3. -/
def wRpt : RiskReport :=
  { volatility := [("A", 1), ("B", 3)], drawdown := [], risk_score := [],
    avg_volatility := none, max_volatility := none, min_volatility := none }

/-- One-ticker table whose price turns negative: prices 1 then -1.  It
satisfies every PriceTable invariant of the specification (aligned axes, two
dates, one ticker, no missing values) yet its maximum drawdown is -2. -/
def negDf : PriceTable :=
  { tickers := ["A"], rows := [[some 1], [some (-1)]] }

/-- Four-ticker, one-date table used to instantiate the moderate-policy
theorem. -/
def wDf4 : PriceTable :=
  { tickers := ["A", "B", "C", "D"],
    rows := [[some 1, some 2, some 3, some 4]] }

/-- Risk report for `wDf4` with four distinct integer volatilities. -/
def wRpt4 : RiskReport :=
  { volatility := [("A", 1), ("B", 2), ("C", 3), ("D", 4)],
    drawdown := [], risk_score := [],
    avg_volatility := none, max_volatility := none, min_volatility := none }

/-!
Theorems.  The development above is the embedding of the source; everything
from here on is proved about it.
-/

lemma ratFloor_eq_intFloor (q : ℚ) : q.floor = ⌊q⌋ := by
  rw [Rat.floor_def', Rat.floor_def]

lemma sampleVar_nonneg (xs : List ℚ) (h : 2 ≤ xs.length) : 0 ≤ sampleVar xs := by
  unfold sampleVar
  apply div_nonneg
  · apply List.sum_nonneg
    intro x hx
    rcases List.mem_map.1 hx with ⟨y, _, rfl⟩
    positivity
  · have : (2 : ℚ) ≤ (xs.length : ℚ) := by exact_mod_cast h
    linarith

/-- Justification for the squared-volatility embedding: `Real.sqrt` preserves
the order of nonnegative rationals. -/
lemma sqrt_le_sqrt_iff_of_nonneg (x y : ℚ) (hx : 0 ≤ x) (hy : 0 ≤ y) :
    Real.sqrt x ≤ Real.sqrt y ↔ x ≤ y := by
  rw [Real.sqrt_le_sqrt_iff (by exact_mod_cast hy)]
  exact_mod_cast Iff.rfl

/-- Justification for the squared-volatility embedding: `Real.sqrt` preserves
ties between nonnegative rationals. -/
lemma sqrt_eq_sqrt_iff_of_nonneg (x y : ℚ) (hx : 0 ≤ x) (hy : 0 ≤ y) :
    Real.sqrt x = Real.sqrt y ↔ x = y := by
  constructor
  · intro h
    have hx2 : ((x : ℝ)) = Real.sqrt x ^ 2 := by
      rw [Real.sq_sqrt (by exact_mod_cast hx)]
    have hy2 : ((y : ℝ)) = Real.sqrt y ^ 2 := by
      rw [Real.sq_sqrt (by exact_mod_cast hy)]
    have : (x : ℝ) = (y : ℝ) := by rw [hx2, hy2, h]
    exact_mod_cast this
  · intro h; rw [h]

lemma abs_roundHalfEven_sub_le (q : ℚ) : |(roundHalfEven q : ℚ) - q| ≤ 1/2 := by
  unfold roundHalfEven
  rw [ratFloor_eq_intFloor]
  have h0 : ((⌊q⌋ : ℤ) : ℚ) ≤ q := Int.floor_le q
  have h1 : q < (⌊q⌋ : ℚ) + 1 := Int.lt_floor_add_one q
  split_ifs with hlt hgt hev <;> rw [abs_le] <;> constructor <;> push_cast <;> linarith

lemma roundHalfEven_intCast (z : ℤ) : roundHalfEven (z : ℚ) = z := by
  unfold roundHalfEven
  rw [ratFloor_eq_intFloor, Int.floor_intCast]
  simp

lemma IsCent.zero : IsCent 0 := ⟨0, by norm_num⟩

lemma IsCent.add {a b : ℚ} (ha : IsCent a) (hb : IsCent b) : IsCent (a + b) := by
  obtain ⟨x, rfl⟩ := ha
  obtain ⟨y, rfl⟩ := hb
  exact ⟨x + y, by push_cast; ring⟩

lemma isCent_round2 (q : ℚ) : IsCent (round2 q) := ⟨roundHalfEven (100 * q), rfl⟩

lemma IsCent.round2_eq {q : ℚ} (h : IsCent q) : round2 q = q := by
  obtain ⟨z, rfl⟩ := h
  unfold round2
  have h100 : (100 : ℚ) * ((z : ℚ) / 100) = (z : ℚ) := by ring
  rw [h100, roundHalfEven_intCast]

lemma abs_round2_sub_le (q : ℚ) : |round2 q - q| ≤ 1/200 := by
  have h := abs_roundHalfEven_sub_le (100 * q)
  unfold round2
  have : (roundHalfEven (100 * q) : ℚ) / 100 - q
      = ((roundHalfEven (100 * q) : ℚ) - 100 * q) / 100 := by ring
  rw [this, abs_div]
  rw [show |(100 : ℚ)| = 100 by norm_num]
  linarith

lemma isCent_sum (l : List ℚ) (h : ∀ x ∈ l, IsCent x) : IsCent l.sum := by
  induction l with
  | nil => simpa using IsCent.zero
  | cons x xs ih =>
    rw [List.sum_cons]
    exact (h x (by simp)).add (ih (fun y hy => h y (by simp [hy])))

lemma isCent_mkHolding_allocated (budget : ℚ) (price? : Option ℚ) (t : String) (w : ℚ) :
    IsCent (mkHolding budget price? t w).allocated := by
  unfold mkHolding
  match price? with
  | none => exact IsCent.zero
  | some p =>
    by_cases hp : p ≤ 0
    · simp [hp]; exact IsCent.zero
    · simp [hp]; exact isCent_round2 _

/-- Claim C1: every portfolio returned by `generate_portfolio` reports
`allocated` equal to the sum of the holdings' `allocated` amounts exactly, and
`allocated + remaining` equals the reported `budget` to within one cent of
rounding (exact except when a half-cent tie is broken across an odd number of
cents; the two degenerate returns leave `budget` unrounded, also within half a
cent). -/
theorem generate_portfolio_accounting (top_n : ℕ) (budget : ℚ) (risk_level : String)
    (prices? : Option PriceTable) (report : RiskReport) :
    (generate_portfolio top_n budget risk_level prices? report).allocated
      = (((generate_portfolio top_n budget risk_level prices? report).holdings.map
          Holding.allocated)).sum ∧
    |(generate_portfolio top_n budget risk_level prices? report).allocated
      + (generate_portfolio top_n budget risk_level prices? report).remaining
      - (generate_portfolio top_n budget risk_level prices? report).budget| ≤ 1/100 := by
  have herr : ∀ msg, (errPortfolio budget msg).allocated
      = ((errPortfolio budget msg).holdings.map Holding.allocated).sum ∧
      |(errPortfolio budget msg).allocated + (errPortfolio budget msg).remaining
        - (errPortfolio budget msg).budget| ≤ 1/100 := by
    intro msg
    constructor
    · simp [errPortfolio]
    · simp only [errPortfolio]
      have := abs_round2_sub_le budget
      calc |0 + round2 budget - budget| = |round2 budget - budget| := by ring_nf
        _ ≤ 1/200 := abs_round2_sub_le budget
        _ ≤ 1/100 := by norm_num
  match prices? with
  | none => exact herr msgNoData
  | some df =>
    unfold generate_portfolio
    by_cases hemp : df.isEmpty
    · simp only [hemp, if_true]
      exact herr msgNoData
    · simp only [hemp, Bool.false_eq_true, if_false]
      by_cases hn : min top_n (rankedOf df report).length = 0
      · simp only [hn, if_true]
        exact herr msgNoTickers
      · simp only [hn, if_false]
        set holdings := (loopPairs top_n df report risk_level).map
          (fun tw => mkHolding budget (lastPriceOf df tw.1) tw.1 tw.2) with hh
        set s := (holdings.map Holding.allocated).sum with hs
        have hcent : IsCent s := by
          apply isCent_sum
          intro x hx
          rcases List.mem_map.1 hx with ⟨h, hmem, rfl⟩
          rcases List.mem_map.1 hmem with ⟨tw, _, rfl⟩
          exact isCent_mkHolding_allocated budget _ _ _
        have hbs : budget - (budget - s) = s := by ring
        constructor
        · simp only [hbs]
          exact hcent.round2_eq
        · simp only [hbs, hcent.round2_eq]
          have h1 := abs_round2_sub_le (budget - s)
          have h2 := abs_round2_sub_le budget
          have hsplit : s + round2 (budget - s) - round2 budget
              = (round2 (budget - s) - (budget - s)) - (round2 budget - budget) := by ring
          rw [hsplit]
          calc |(round2 (budget - s) - (budget - s)) - (round2 budget - budget)|
              ≤ |round2 (budget - s) - (budget - s)| + |round2 budget - budget| :=
                abs_sub _ _
            _ ≤ 1/200 + 1/200 := add_le_add h1 h2
            _ = 1/100 := by norm_num

/-- Counterexample to claim C3 as stated: for the empty price table and the
sub-cent budget 0.001, the degenerate return carries `remaining = 0` — the
source rounds `remaining` to cents (line 39) — which differs from the budget,
even though holdings, allocated and the error marker are as claimed. -/
theorem generate_portfolio_empty_remaining_ne_budget :
    (generate_portfolio 5 (1/1000) riskLow (some emptyTable) emptyReport).remaining = 0 ∧
    (0 : ℚ) ≠ 1/1000 ∧
    (generate_portfolio 5 (1/1000) riskLow (some emptyTable) emptyReport).error
      = some msgNoData := by
  have hval : generate_portfolio 5 (1/1000) riskLow (some emptyTable) emptyReport
      = errPortfolio (1/1000) msgNoData := rfl
  refine ⟨?_, by norm_num, by rw [hval]; rfl⟩
  rw [hval]
  show round2 (1/1000) = 0
  rw [round2, roundHalfEven, ratFloor_eq_intFloor]
  norm_num

/-- Claim C3 (amended): `generate_portfolio` is total and never raises.  An
absent or empty price table yields the zero-holding diagnostic portfolio —
`holdings = []`, `allocated = 0`, `remaining = budget` rounded to cents, and
the `error` marker present; an empty resolved universe yields the other
diagnostic portfolio; and on every other input the fallback ladder absorbs the
degenerate cases and a normal portfolio with `error = none` is returned. -/
theorem generate_portfolio_degenerate_cases (top_n : ℕ) (budget : ℚ)
    (risk_level : String) (prices? : Option PriceTable) (report : RiskReport) :
    (prices? = none →
      generate_portfolio top_n budget risk_level prices? report
        = errPortfolio budget msgNoData) ∧
    (∀ df, prices? = some df → df.isEmpty = true →
      generate_portfolio top_n budget risk_level prices? report
        = errPortfolio budget msgNoData) ∧
    (∀ df, prices? = some df → df.isEmpty = false →
      min top_n (rankedOf df report).length = 0 →
      generate_portfolio top_n budget risk_level prices? report
        = errPortfolio budget msgNoTickers) ∧
    (∀ df, prices? = some df → df.isEmpty = false →
      min top_n (rankedOf df report).length ≠ 0 →
      (generate_portfolio top_n budget risk_level prices? report).error = none) := by
  refine ⟨?_, ?_, ?_, ?_⟩
  · rintro rfl; rfl
  · rintro df rfl hemp
    unfold generate_portfolio
    simp [hemp]
  · rintro df rfl hemp hn
    unfold generate_portfolio
    simp [hemp, hn]
  · rintro df rfl hemp hn
    unfold generate_portfolio
    simp [hemp, hn]

/-- Concrete instantiation of `generate_portfolio_degenerate_cases`: the empty
table with budget 100 produces exactly the diagnostic portfolio. -/
theorem generate_portfolio_degenerate_cases_witness :
    (some emptyTable = some emptyTable) ∧ (emptyTable.isEmpty = true) ∧
    generate_portfolio 5 100 riskLow (some emptyTable) emptyReport
      = errPortfolio 100 msgNoData :=
  ⟨rfl, by decide,
    (generate_portfolio_degenerate_cases 5 100 riskLow (some emptyTable)
      emptyReport).2.1 emptyTable rfl (by decide)⟩

lemma sum_map_div (l : List ℚ) (c : ℚ) : (l.map (fun x => x / c)).sum = l.sum / c := by
  induction l with
  | nil => simp
  | cons x xs ih => simp [ih, add_div]

lemma isEmpty_false_of_ne_nil {α : Type} {l : List α} (h : l ≠ []) : l.isEmpty = false := by
  cases l with
  | nil => exact absurd rfl h
  | cons a l => rfl

lemma chooseWeights_low (ranked : List (String × ℚ)) (n : ℕ) :
    chooseWeights riskLow ranked n = ((ranked.take n).map Prod.fst, lowWeights n) := by
  unfold chooseWeights
  rw [if_pos rfl]

lemma chooseWeights_high (ranked : List (String × ℚ)) (n : ℕ) :
    chooseWeights riskHigh ranked n
      = ((ranked.drop (ranked.length - n)).map Prod.fst,
         if ((epsVols ranked n).map (fun v => v / (epsVols ranked n).sum)).sum = 0 then
           List.replicate (ranked.drop (ranked.length - n)).length
             ((1 : ℚ) / ((ranked.drop (ranked.length - n)).length : ℚ))
         else (epsVols ranked n).map (fun v => v / (epsVols ranked n).sum)) := by
  unfold chooseWeights
  rw [if_neg (by decide), if_pos rfl]

lemma chooseWeights_other (risk : String) (h1 : risk ≠ riskLow) (h2 : risk ≠ riskHigh)
    (ranked : List (String × ℚ)) (n : ℕ) (hn1 : 1 ≤ n) (hn2 : n ≤ ranked.length) :
    chooseWeights risk ranked n
      = ((ranked.take (n / 2)).map Prod.fst
          ++ (ranked.drop (ranked.length - (n - n / 2))).map Prod.fst,
         List.replicate n ((1 : ℚ) / (n : ℚ))) := by
  unfold chooseWeights
  rw [if_neg h1, if_neg h2]
  simp only []
  have hhc : 0 < n - n / 2 := by omega
  rw [if_pos hhc]
  have hhigh_len : ((ranked.drop (ranked.length - (n - n / 2))).map Prod.fst).length
      = n - n / 2 := by
    simp only [List.length_map, List.length_drop]
    omega
  have hhigh_ne : (ranked.drop (ranked.length - (n - n / 2))).map Prod.fst ≠ [] := by
    intro hcon
    rw [hcon] at hhigh_len
    simp at hhigh_len
    omega
  have hne : ((ranked.take (n / 2)).map Prod.fst
      ++ (ranked.drop (ranked.length - (n - n / 2))).map Prod.fst) ≠ [] := by
    intro hcon
    exact hhigh_ne (List.append_eq_nil.1 hcon).2
  rw [if_neg (by rw [isEmpty_false_of_ne_nil hne]; exact Bool.false_ne_true)]
  have hlen : ((ranked.take (n / 2)).map Prod.fst
      ++ (ranked.drop (ranked.length - (n - n / 2))).map Prod.fst).length = n := by
    simp only [List.length_append, List.length_map, List.length_take, List.length_drop]
    omega
  rw [hlen]

lemma lowWeights_length (n : ℕ) (hn1 : 1 ≤ n) : (lowWeights n).length = n := by
  unfold lowWeights
  by_cases hn : n = 1
  · simp [hn]
  · rw [if_neg hn]
    simp only [List.length_cons, List.length_replicate]
    omega

lemma lowWeights_pos (n : ℕ) (hn1 : 1 ≤ n) : ∀ w ∈ lowWeights n, 0 < w := by
  intro w hw
  unfold lowWeights at hw
  by_cases hn : n = 1
  · rw [if_pos hn] at hw
    simp at hw
    simp [hw]
  · rw [if_neg hn] at hw
    have h2 : (2 : ℚ) ≤ (n : ℚ) := by exact_mod_cast (by omega : 2 ≤ n)
    rcases List.mem_cons.1 hw with h | h
    · rw [h]; norm_num
    · rw [List.eq_of_mem_replicate h]
      apply div_pos (by norm_num)
      linarith

lemma lowWeights_sum (n : ℕ) (hn1 : 1 ≤ n) : (lowWeights n).sum = 1 := by
  unfold lowWeights
  by_cases hn : n = 1
  · simp [hn]
  · rw [if_neg hn]
    rw [List.sum_cons, List.sum_replicate, nsmul_eq_mul]
    have hcast : ((n - 1 : ℕ) : ℚ) = (n : ℚ) - 1 := by
      push_cast [Nat.cast_sub hn1]
      ring
    have h2 : (2 : ℚ) ≤ (n : ℚ) := by exact_mod_cast (by omega : 2 ≤ n)
    have hne : (n : ℚ) - 1 ≠ 0 := by linarith
    rw [hcast]
    field_simp
    ring

lemma epsVols_length (ranked : List (String × ℚ)) (n : ℕ) (hn2 : n ≤ ranked.length) :
    (epsVols ranked n).length = n := by
  simp only [epsVols, List.length_map, List.length_drop]
  omega

lemma epsVols_pos (ranked : List (String × ℚ)) (n : ℕ) :
    ∀ v ∈ epsVols ranked n, 0 < v := by
  intro v hv
  simp only [epsVols, List.mem_map] at hv
  obtain ⟨w, ⟨p, _, rfl⟩, rfl⟩ := hv
  by_cases hw : p.2 ≤ 0
  · rw [if_pos hw]; norm_num
  · rw [if_neg hw]; exact lt_of_not_le hw

lemma epsVols_sum_pos (ranked : List (String × ℚ)) (n : ℕ)
    (hn1 : 1 ≤ n) (hn2 : n ≤ ranked.length) : 0 < (epsVols ranked n).sum := by
  apply List.sum_pos _ (epsVols_pos ranked n)
  intro hcon
  have := epsVols_length ranked n hn2
  rw [hcon] at this
  simp at this
  omega

/-- Lengths, strict positivity and exact unit sum of the pre-normalization
weight vector, in every risk-level branch. -/
lemma chooseWeights_spec (risk : String) (ranked : List (String × ℚ)) (n : ℕ)
    (hn1 : 1 ≤ n) (hn2 : n ≤ ranked.length) :
    (chooseWeights risk ranked n).1.length = n ∧
    (chooseWeights risk ranked n).2.length = n ∧
    (∀ w ∈ (chooseWeights risk ranked n).2, 0 < w) ∧
    (chooseWeights risk ranked n).2.sum = 1 := by
  by_cases hl : risk = riskLow
  · subst hl
    rw [chooseWeights_low]
    refine ⟨?_, lowWeights_length n hn1, lowWeights_pos n hn1, lowWeights_sum n hn1⟩
    simp only [List.length_map, List.length_take]
    omega
  · by_cases hh : risk = riskHigh
    · subst hh
      rw [chooseWeights_high]
      have hsum_ne : (epsVols ranked n).sum ≠ 0 := ne_of_gt (epsVols_sum_pos ranked n hn1 hn2)
      have hdivsum : ((epsVols ranked n).map (fun v => v / (epsVols ranked n).sum)).sum = 1 := by
        rw [sum_map_div, div_self hsum_ne]
      rw [if_neg (by rw [hdivsum]; norm_num)]
      refine ⟨?_, ?_, ?_, hdivsum⟩
      · simp only [List.length_map, List.length_drop]
        omega
      · rw [List.length_map, epsVols_length ranked n hn2]
      · intro w hw
        rcases List.mem_map.1 hw with ⟨v, hv, rfl⟩
        exact div_pos (epsVols_pos ranked n v hv) (epsVols_sum_pos ranked n hn1 hn2)
    · rw [chooseWeights_other risk hl hh ranked n hn1 hn2]
      have hnq : (0 : ℚ) < (n : ℚ) := by exact_mod_cast (by omega : 0 < n)
      refine ⟨?_, by simp, ?_, ?_⟩
      · simp only [List.length_append, List.length_map, List.length_take, List.length_drop]
        omega
      · intro w hw
        rw [List.eq_of_mem_replicate hw]
        positivity
      · rw [List.sum_replicate, nsmul_eq_mul]
        field_simp

lemma normalizeW_of_sum_one {ws : List ℚ} (h : ws.sum = 1) : normalizeW ws = ws := by
  unfold normalizeW
  rw [if_neg (by rw [h]; norm_num), h]
  simp

lemma loopPairs_eq (top_n : ℕ) (df : PriceTable) (report : RiskReport) (risk : String)
    (hn : 1 ≤ min top_n (rankedOf df report).length) :
    loopPairs top_n df report risk
      = (chooseWeights risk (rankedOf df report) (min top_n (rankedOf df report).length)).1.zip
        (chooseWeights risk (rankedOf df report) (min top_n (rankedOf df report).length)).2 := by
  simp only [loopPairs]
  rw [normalizeW_of_sum_one
    (chooseWeights_spec risk _ _ hn (min_le_right _ _)).2.2.2]

lemma generate_portfolio_holdings (top_n : ℕ) (budget : ℚ) (risk : String)
    (df : PriceTable) (report : RiskReport)
    (hemp : df.isEmpty = false) (hn : min top_n (rankedOf df report).length ≠ 0) :
    (generate_portfolio top_n budget risk (some df) report).holdings
      = (loopPairs top_n df report risk).map
          (fun tw => mkHolding budget (lastPriceOf df tw.1) tw.1 tw.2) := by
  unfold generate_portfolio
  simp [hemp, hn]

lemma mkHolding_ticker (budget : ℚ) (price? : Option ℚ) (t : String) (w : ℚ) :
    (mkHolding budget price? t w).ticker = t := by
  unfold mkHolding
  cases price? with
  | none => rfl
  | some p =>
    by_cases hp : p ≤ 0
    · simp [hp]
    · simp [hp]

lemma mkHolding_weight (budget : ℚ) (price? : Option ℚ) (t : String) (w : ℚ) :
    (mkHolding budget price? t w).weight = round6 w := by
  unfold mkHolding
  cases price? with
  | none => rfl
  | some p =>
    by_cases hp : p ≤ 0
    · simp [hp]
    · simp [hp]

lemma mkHolding_priced (budget : ℚ) (p : ℚ) (t : String) (w : ℚ) (hp : 0 < p) :
    (mkHolding budget (some p) t w).shares = ⌊budget * w / p⌋ ∧
    (mkHolding budget (some p) t w).allocated = round2 ((⌊budget * w / p⌋ : ℚ) * p) ∧
    (mkHolding budget (some p) t w).price = some p := by
  unfold mkHolding
  simp only [if_neg (not_le.2 hp), ratFloor_eq_intFloor]
  exact ⟨trivial, trivial, trivial⟩

lemma mkHolding_unpriced (budget : ℚ) (price? : Option ℚ) (t : String) (w : ℚ)
    (h : price? = none ∨ ∃ p, price? = some p ∧ p ≤ 0) :
    (mkHolding budget price? t w).shares = 0 ∧ (mkHolding budget price? t w).allocated = 0 := by
  unfold mkHolding
  rcases h with rfl | ⟨p, rfl, hp⟩
  · exact ⟨rfl, rfl⟩
  · simp only [if_pos hp]
    exact ⟨trivial, trivial⟩

lemma mkHolding_cost_le (budget : ℚ) (price? : Option ℚ) (t : String) (w : ℚ)
    (hb : 0 ≤ budget) (hw : 0 ≤ w) :
    (mkHolding budget price? t w).cost ≤ budget * w := by
  unfold mkHolding Holding.cost
  cases price? with
  | none =>
    simp only [Option.getD_none, mul_zero, Int.cast_zero, zero_mul]
    positivity
  | some p =>
    by_cases hp : p ≤ 0
    · simp only [if_pos hp, Option.getD_some, Int.cast_zero, zero_mul]
      positivity
    · simp only [if_neg hp]
      have hp2 : 0 < p := lt_of_not_le hp
      simp only [Option.getD_some, ratFloor_eq_intFloor]
      have h1 : (⌊budget * w / p⌋ : ℚ) ≤ budget * w / p := Int.floor_le _
      calc (⌊budget * w / p⌋ : ℚ) * p ≤ (budget * w / p) * p :=
            mul_le_mul_of_nonneg_right h1 (le_of_lt hp2)
        _ = budget * w := div_mul_cancel₀ _ (ne_of_gt hp2)

lemma sum_map_mul_left (l : List ℚ) (c : ℚ) :
    (l.map (fun x => c * x)).sum = c * l.sum := by
  induction l with
  | nil => simp
  | cons x xs ih => simp [ih, mul_add]

/-- Claim C9: whenever the chosen set is nonempty, the pre-normalization
weight vector has a strictly positive sum (it is in fact exactly 1 in every
branch), the final renormalization of lines 108–113 takes the division branch
— never the zero-sum equal-weight fallback — and in the `high` branch the
inner zero-sum fallback of lines 95–96 is likewise not taken: the returned
weights are exactly the epsilon-substituted proportional weights. -/
theorem chooseWeights_sum_pos_no_fallback (risk : String) (ranked : List (String × ℚ))
    (n : ℕ) (hn1 : 1 ≤ n) (hn2 : n ≤ ranked.length) :
    0 < (chooseWeights risk ranked n).2.sum ∧
    normalizeW (chooseWeights risk ranked n).2
      = (chooseWeights risk ranked n).2.map
          (fun w => w / (chooseWeights risk ranked n).2.sum) ∧
    (risk = riskHigh →
      (chooseWeights risk ranked n).2
        = (epsVols ranked n).map (fun v => v / (epsVols ranked n).sum)) := by
  have hs := chooseWeights_spec risk ranked n hn1 hn2
  refine ⟨by rw [hs.2.2.2]; norm_num, ?_, ?_⟩
  · unfold normalizeW
    rw [if_neg (by rw [hs.2.2.2]; norm_num)]
  · rintro rfl
    rw [chooseWeights_high]
    have hsum_ne : (epsVols ranked n).sum ≠ 0 :=
      ne_of_gt (epsVols_sum_pos ranked n hn1 hn2)
    rw [if_neg (by rw [sum_map_div, div_self hsum_ne]; norm_num)]

/-- Concrete instantiation of `chooseWeights_sum_pos_no_fallback` at the
two-ticker `high` universe with volatilities 0 and 3. -/
theorem chooseWeights_sum_pos_no_fallback_witness :
    1 ≤ 2 ∧ 2 ≤ ([("A", (0 : ℚ)), ("B", 3)] : List (String × ℚ)).length ∧
    (0 < (chooseWeights riskHigh [("A", (0 : ℚ)), ("B", 3)] 2).2.sum ∧
     normalizeW (chooseWeights riskHigh [("A", (0 : ℚ)), ("B", 3)] 2).2
       = (chooseWeights riskHigh [("A", (0 : ℚ)), ("B", 3)] 2).2.map
           (fun w => w / (chooseWeights riskHigh [("A", (0 : ℚ)), ("B", 3)] 2).2.sum) ∧
     (riskHigh = riskHigh →
       (chooseWeights riskHigh [("A", (0 : ℚ)), ("B", 3)] 2).2
         = (epsVols [("A", (0 : ℚ)), ("B", 3)] 2).map
             (fun v => v / (epsVols [("A", (0 : ℚ)), ("B", 3)] 2).sum))) :=
  ⟨by norm_num, by norm_num,
    chooseWeights_sum_pos_no_fallback riskHigh [("A", (0 : ℚ)), ("B", 3)] 2
      (by norm_num) (by norm_num)⟩

/-- Claim C2: with a nonnegative budget, every holding of a generated
portfolio satisfies the share-conversion contract of lines 120–136: a
positively priced ticker gets `shares = floor(budget * weight / price)`, a
nonnegative integer whose cost `shares * price` never exceeds its weighted
allocation `budget * weight`; a ticker with a missing or nonpositive last
price gets `shares = 0` and `allocated = 0`; and the total true cost of the
portfolio never exceeds the budget. -/
theorem generate_portfolio_no_overspend (top_n : ℕ) (budget : ℚ) (risk : String)
    (df : PriceTable) (report : RiskReport)
    (hb : 0 ≤ budget) (hemp : df.isEmpty = false)
    (hn : 1 ≤ min top_n (rankedOf df report).length) :
    (generate_portfolio top_n budget risk (some df) report).holdings
      = (loopPairs top_n df report risk).map
          (fun tw => mkHolding budget (lastPriceOf df tw.1) tw.1 tw.2) ∧
    (∀ tw ∈ loopPairs top_n df report risk,
      (∀ p, lastPriceOf df tw.1 = some p → 0 < p →
        (mkHolding budget (lastPriceOf df tw.1) tw.1 tw.2).shares = ⌊budget * tw.2 / p⌋ ∧
        0 ≤ (mkHolding budget (lastPriceOf df tw.1) tw.1 tw.2).shares ∧
        ((mkHolding budget (lastPriceOf df tw.1) tw.1 tw.2).shares : ℚ) * p
          ≤ budget * tw.2) ∧
      ((lastPriceOf df tw.1 = none ∨ ∃ p, lastPriceOf df tw.1 = some p ∧ p ≤ 0) →
        (mkHolding budget (lastPriceOf df tw.1) tw.1 tw.2).shares = 0 ∧
        (mkHolding budget (lastPriceOf df tw.1) tw.1 tw.2).allocated = 0)) ∧
    ((generate_portfolio top_n budget risk (some df) report).holdings.map
        Holding.cost).sum ≤ budget := by
  have hn2 : min top_n (rankedOf df report).length ≤ (rankedOf df report).length :=
    min_le_right _ _
  have hs := chooseWeights_spec risk (rankedOf df report) _ hn hn2
  have hlp := loopPairs_eq top_n df report risk hn
  have hhold := generate_portfolio_holdings top_n budget risk df report hemp (by omega)
  have hwpos : ∀ tw ∈ loopPairs top_n df report risk, 0 < tw.2 := by
    rintro ⟨t, w⟩ htw
    rw [hlp] at htw
    exact hs.2.2.1 w (List.of_mem_zip htw).2
  refine ⟨hhold, ?_, ?_⟩
  · rintro ⟨t, w⟩ htw
    have hw : 0 < (t, w).2 := hwpos ⟨t, w⟩ htw
    simp only at hw
    constructor
    · rintro p hp hppos
      simp only [hp]
      have h1 := mkHolding_priced budget p t w hppos
      refine ⟨h1.1, ?_, ?_⟩
      · rw [h1.1]
        apply Int.floor_nonneg.2
        positivity
      · rw [h1.1]
        have hle : (⌊budget * w / p⌋ : ℚ) ≤ budget * w / p := Int.floor_le _
        calc (⌊budget * w / p⌋ : ℚ) * p ≤ (budget * w / p) * p :=
              mul_le_mul_of_nonneg_right hle (le_of_lt hppos)
          _ = budget * w := div_mul_cancel₀ _ (ne_of_gt hppos)
    · intro hnp
      exact mkHolding_unpriced budget _ t w hnp
  · rw [hhold, List.map_map]
    have hle1 : ∀ tw ∈ loopPairs top_n df report risk,
        (Holding.cost ∘ fun tw => mkHolding budget (lastPriceOf df tw.1) tw.1 tw.2) tw
          ≤ budget * tw.2 := by
      intro tw htw
      exact mkHolding_cost_le budget _ tw.1 tw.2 hb (le_of_lt (hwpos tw htw))
    calc ((loopPairs top_n df report risk).map
            (Holding.cost ∘ fun tw => mkHolding budget (lastPriceOf df tw.1) tw.1 tw.2)).sum
        ≤ ((loopPairs top_n df report risk).map (fun tw => budget * tw.2)).sum :=
          List.sum_le_sum hle1
      _ = budget := by
          have hmm : (loopPairs top_n df report risk).map (fun tw => budget * tw.2)
              = ((loopPairs top_n df report risk).map Prod.snd).map
                  (fun x => budget * x) := by
            rw [List.map_map]
            rfl
          rw [hmm, sum_map_mul_left]
          have hsnd : (loopPairs top_n df report risk).map Prod.snd
              = (chooseWeights risk (rankedOf df report)
                  (min top_n (rankedOf df report).length)).2 := by
            rw [hlp]
            exact List.map_snd_zip _ _ (le_of_eq (hs.2.1.trans hs.1.symm))
          rw [hsnd, hs.2.2.2, mul_one]

/-- Concrete instantiation of `generate_portfolio_no_overspend` at budget 100,
the low-risk policy, and the two-ticker table `wDf`. -/
theorem generate_portfolio_no_overspend_witness :
    (0 : ℚ) ≤ 100 ∧ wDf.isEmpty = false ∧ 1 ≤ min 5 (rankedOf wDf wRpt).length ∧
    ((generate_portfolio 5 100 riskLow (some wDf) wRpt).holdings
        = (loopPairs 5 wDf wRpt riskLow).map
            (fun tw => mkHolding 100 (lastPriceOf wDf tw.1) tw.1 tw.2) ∧
     (∀ tw ∈ loopPairs 5 wDf wRpt riskLow,
       (∀ p, lastPriceOf wDf tw.1 = some p → 0 < p →
         (mkHolding 100 (lastPriceOf wDf tw.1) tw.1 tw.2).shares = ⌊100 * tw.2 / p⌋ ∧
         0 ≤ (mkHolding 100 (lastPriceOf wDf tw.1) tw.1 tw.2).shares ∧
         ((mkHolding 100 (lastPriceOf wDf tw.1) tw.1 tw.2).shares : ℚ) * p
           ≤ 100 * tw.2) ∧
       ((lastPriceOf wDf tw.1 = none ∨ ∃ p, lastPriceOf wDf tw.1 = some p ∧ p ≤ 0) →
         (mkHolding 100 (lastPriceOf wDf tw.1) tw.1 tw.2).shares = 0 ∧
         (mkHolding 100 (lastPriceOf wDf tw.1) tw.1 tw.2).allocated = 0)) ∧
     ((generate_portfolio 5 100 riskLow (some wDf) wRpt).holdings.map
         Holding.cost).sum ≤ 100) :=
  ⟨by norm_num, by decide, by decide,
    generate_portfolio_no_overspend 5 100 riskLow wDf wRpt
      (by norm_num) (by decide) (by decide)⟩

lemma holdings_ticker_map (top_n : ℕ) (budget : ℚ) (risk : String)
    (df : PriceTable) (report : RiskReport)
    (hemp : df.isEmpty = false) (hn : 1 ≤ min top_n (rankedOf df report).length) :
    (generate_portfolio top_n budget risk (some df) report).holdings.map Holding.ticker
      = (chooseWeights risk (rankedOf df report)
          (min top_n (rankedOf df report).length)).1 := by
  have hs := chooseWeights_spec risk (rankedOf df report) _ hn (min_le_right _ _)
  rw [generate_portfolio_holdings top_n budget risk df report hemp (by omega),
    List.map_map]
  have hcomp : (Holding.ticker ∘ fun tw : String × ℚ =>
      mkHolding budget (lastPriceOf df tw.1) tw.1 tw.2) = Prod.fst := by
    funext tw
    exact mkHolding_ticker budget _ tw.1 tw.2
  rw [hcomp, loopPairs_eq top_n df report risk hn,
    List.map_fst_zip _ _ (le_of_eq (hs.1.trans hs.2.1.symm))]

lemma holdings_weight_map (top_n : ℕ) (budget : ℚ) (risk : String)
    (df : PriceTable) (report : RiskReport)
    (hemp : df.isEmpty = false) (hn : 1 ≤ min top_n (rankedOf df report).length) :
    (generate_portfolio top_n budget risk (some df) report).holdings.map Holding.weight
      = ((chooseWeights risk (rankedOf df report)
          (min top_n (rankedOf df report).length)).2).map round6 := by
  have hs := chooseWeights_spec risk (rankedOf df report) _ hn (min_le_right _ _)
  rw [generate_portfolio_holdings top_n budget risk df report hemp (by omega),
    List.map_map]
  have hcomp : (Holding.weight ∘ fun tw : String × ℚ =>
      mkHolding budget (lastPriceOf df tw.1) tw.1 tw.2) = round6 ∘ Prod.snd := by
    funext tw
    exact mkHolding_weight budget _ tw.1 tw.2
  rw [hcomp, ← List.map_map, loopPairs_eq top_n df report risk hn,
    List.map_snd_zip _ _ (le_of_eq (hs.2.1.trans hs.1.symm))]

lemma loopPairs_snd (top_n : ℕ) (risk : String) (df : PriceTable) (report : RiskReport)
    (hn : 1 ≤ min top_n (rankedOf df report).length) :
    (loopPairs top_n df report risk).map Prod.snd
      = (chooseWeights risk (rankedOf df report)
          (min top_n (rankedOf df report).length)).2 := by
  have hs := chooseWeights_spec risk (rankedOf df report) _ hn (min_le_right _ _)
  rw [loopPairs_eq top_n df report risk hn,
    List.map_snd_zip _ _ (le_of_eq (hs.2.1.trans hs.1.symm))]

/-- Claim C4: under risk level `low` the ranked list is an
ascending-volatility ordering (a sorted permutation of the resolved
volatility mapping), the holdings are exactly its first
`n = min(top_n, universe size)` entries — the `n` lowest-volatility tickers in
ascending volatility order —, the allocation weights used are `lowWeights n`
(1.0 for a single holding, otherwise 0.8 on the lowest-volatility ticker and
0.2/(n-1) on each other), and each stored holding weight is that weight
rounded to 6 decimals. -/
theorem generate_portfolio_low_policy (top_n : ℕ) (budget : ℚ)
    (df : PriceTable) (report : RiskReport)
    (hemp : df.isEmpty = false) (hn : 1 ≤ min top_n (rankedOf df report).length) :
    List.Sorted volLe (rankedOf df report) ∧
    (rankedOf df report).Perm (volMap df report) ∧
    (generate_portfolio top_n budget riskLow (some df) report).holdings.map Holding.ticker
      = ((rankedOf df report).take (min top_n (rankedOf df report).length)).map Prod.fst ∧
    (loopPairs top_n df report riskLow).map Prod.snd
      = lowWeights (min top_n (rankedOf df report).length) ∧
    (generate_portfolio top_n budget riskLow (some df) report).holdings.map Holding.weight
      = (lowWeights (min top_n (rankedOf df report).length)).map round6 := by
  have hfst : (chooseWeights riskLow (rankedOf df report)
      (min top_n (rankedOf df report).length)).1
      = ((rankedOf df report).take (min top_n (rankedOf df report).length)).map Prod.fst := by
    rw [chooseWeights_low]
  have hsnd : (chooseWeights riskLow (rankedOf df report)
      (min top_n (rankedOf df report).length)).2
      = lowWeights (min top_n (rankedOf df report).length) := by
    rw [chooseWeights_low]
  refine ⟨List.sorted_insertionSort volLe (volMap df report),
    List.perm_insertionSort volLe (volMap df report), ?_, ?_, ?_⟩
  · rw [holdings_ticker_map top_n budget riskLow df report hemp hn, hfst]
  · rw [loopPairs_snd top_n riskLow df report hn, hsnd]
  · rw [holdings_weight_map top_n budget riskLow df report hemp hn, hsnd]

/-- Concrete instantiation of `generate_portfolio_low_policy` at the
two-ticker table `wDf`. -/
theorem generate_portfolio_low_policy_witness :
    wDf.isEmpty = false ∧ 1 ≤ min 5 (rankedOf wDf wRpt).length ∧
    (List.Sorted volLe (rankedOf wDf wRpt) ∧
     (rankedOf wDf wRpt).Perm (volMap wDf wRpt) ∧
     (generate_portfolio 5 100 riskLow (some wDf) wRpt).holdings.map Holding.ticker
       = ((rankedOf wDf wRpt).take (min 5 (rankedOf wDf wRpt).length)).map Prod.fst ∧
     (loopPairs 5 wDf wRpt riskLow).map Prod.snd
       = lowWeights (min 5 (rankedOf wDf wRpt).length) ∧
     (generate_portfolio 5 100 riskLow (some wDf) wRpt).holdings.map Holding.weight
       = (lowWeights (min 5 (rankedOf wDf wRpt).length)).map round6) :=
  ⟨by decide, by decide,
    generate_portfolio_low_policy 5 100 wDf wRpt (by decide) (by decide)⟩

/-- Claim C5: under risk level `high` the holdings are exactly the last
`n = min(top_n, universe size)` entries of the ascending-volatility ranking —
the `n` highest-volatility tickers —, the allocation weights used are the
chosen volatilities with every nonpositive entry replaced by the epsilon 1e-6,
each divided by their sum, the stored weights are those rounded to 6 decimals,
and consequently in a two-ticker selection whose epsilon-substituted
volatilities are `a ≤ b` (e.g. volatilities 0 and 0.5) the higher-volatility
ticker receives weight `b/(a+b) ≥ 1/2`. -/
theorem generate_portfolio_high_policy (top_n : ℕ) (budget : ℚ)
    (df : PriceTable) (report : RiskReport)
    (hemp : df.isEmpty = false) (hn : 1 ≤ min top_n (rankedOf df report).length) :
    List.Sorted volLe (rankedOf df report) ∧
    (generate_portfolio top_n budget riskHigh (some df) report).holdings.map Holding.ticker
      = ((rankedOf df report).drop ((rankedOf df report).length
          - min top_n (rankedOf df report).length)).map Prod.fst ∧
    (loopPairs top_n df report riskHigh).map Prod.snd
      = (epsVols (rankedOf df report) (min top_n (rankedOf df report).length)).map
          (fun v => v / (epsVols (rankedOf df report)
            (min top_n (rankedOf df report).length)).sum) ∧
    (generate_portfolio top_n budget riskHigh (some df) report).holdings.map Holding.weight
      = ((epsVols (rankedOf df report) (min top_n (rankedOf df report).length)).map
          (fun v => v / (epsVols (rankedOf df report)
            (min top_n (rankedOf df report).length)).sum)).map round6 ∧
    (∀ a b : ℚ,
      epsVols (rankedOf df report) (min top_n (rankedOf df report).length) = [a, b] →
      0 < a → a ≤ b →
      (loopPairs top_n df report riskHigh).map Prod.snd
        = [a / (a + b), b / (a + b)] ∧ 1/2 ≤ b / (a + b)) := by
  have hn2 : min top_n (rankedOf df report).length ≤ (rankedOf df report).length :=
    min_le_right _ _
  have hsnd : (chooseWeights riskHigh (rankedOf df report)
      (min top_n (rankedOf df report).length)).2
      = (epsVols (rankedOf df report) (min top_n (rankedOf df report).length)).map
          (fun v => v / (epsVols (rankedOf df report)
            (min top_n (rankedOf df report).length)).sum) :=
    (chooseWeights_sum_pos_no_fallback riskHigh (rankedOf df report) _ hn hn2).2.2 rfl
  have hfst : (chooseWeights riskHigh (rankedOf df report)
      (min top_n (rankedOf df report).length)).1
      = ((rankedOf df report).drop ((rankedOf df report).length
          - min top_n (rankedOf df report).length)).map Prod.fst := by
    rw [chooseWeights_high]
  have hw : (loopPairs top_n df report riskHigh).map Prod.snd
      = (epsVols (rankedOf df report) (min top_n (rankedOf df report).length)).map
          (fun v => v / (epsVols (rankedOf df report)
            (min top_n (rankedOf df report).length)).sum) := by
    rw [loopPairs_snd top_n riskHigh df report hn, hsnd]
  refine ⟨List.sorted_insertionSort volLe (volMap df report), ?_, hw, ?_, ?_⟩
  · rw [holdings_ticker_map top_n budget riskHigh df report hemp hn, hfst]
  · rw [holdings_weight_map top_n budget riskHigh df report hemp hn, hsnd]
  · intro a b hab ha hle
    have hs : (epsVols (rankedOf df report)
        (min top_n (rankedOf df report).length)).sum = a + b := by
      rw [hab]
      simp
    have hab2 : (0 : ℚ) < a + b := by linarith
    constructor
    · rw [hw, hab]
      simp
    · rw [le_div_iff₀ hab2]
      linarith

/-- Concrete instantiation of `generate_portfolio_high_policy` at the
two-ticker table `wDf`. -/
theorem generate_portfolio_high_policy_witness :
    wDf.isEmpty = false ∧ 1 ≤ min 5 (rankedOf wDf wRpt).length ∧
    (List.Sorted volLe (rankedOf wDf wRpt) ∧
     (generate_portfolio 5 100 riskHigh (some wDf) wRpt).holdings.map Holding.ticker
       = ((rankedOf wDf wRpt).drop ((rankedOf wDf wRpt).length
           - min 5 (rankedOf wDf wRpt).length)).map Prod.fst ∧
     (loopPairs 5 wDf wRpt riskHigh).map Prod.snd
       = (epsVols (rankedOf wDf wRpt) (min 5 (rankedOf wDf wRpt).length)).map
           (fun v => v / (epsVols (rankedOf wDf wRpt)
             (min 5 (rankedOf wDf wRpt).length)).sum) ∧
     (generate_portfolio 5 100 riskHigh (some wDf) wRpt).holdings.map Holding.weight
       = ((epsVols (rankedOf wDf wRpt) (min 5 (rankedOf wDf wRpt).length)).map
           (fun v => v / (epsVols (rankedOf wDf wRpt)
             (min 5 (rankedOf wDf wRpt).length)).sum)).map round6 ∧
     (∀ a b : ℚ,
       epsVols (rankedOf wDf wRpt) (min 5 (rankedOf wDf wRpt).length) = [a, b] →
       0 < a → a ≤ b →
       (loopPairs 5 wDf wRpt riskHigh).map Prod.snd
         = [a / (a + b), b / (a + b)] ∧ 1/2 ≤ b / (a + b))) :=
  ⟨by decide, by decide,
    generate_portfolio_high_policy 5 100 wDf wRpt (by decide) (by decide)⟩

lemma volSeries_keys_nodup (df : PriceTable) (report : RiskReport)
    (hT : df.tickers.Nodup) (hR : (report.volatility.map Prod.fst).Nodup) :
    ((volSeries df report).map Prod.fst).Nodup := by
  unfold volSeries
  by_cases h : report.volatility.isEmpty
  · rw [if_pos h]
    have hraw : (volRawOf df).map Prod.fst = df.tickers := by
      simp only [volRawOf, List.map_map]
      have hcomp : (Prod.fst ∘ fun jt : ℕ × String =>
          (jt.2, annVolSq (cleanCol ((List.range df.tickers.length).map
            (fun j => pctCol (df.col j))) jt.1 df.rows.length))) = Prod.snd := rfl
      rw [hcomp, List.enum_map_snd]
    rw [hraw]
    exact hT
  · rw [if_neg h, List.map_map]
    have hcomp : (Prod.fst ∘ fun tv : String × ℚ => (tv.1, some tv.2)) = Prod.fst := rfl
    rw [hcomp]
    exact hR

lemma availableOf_nodup (df : PriceTable) (report : RiskReport)
    (hT : df.tickers.Nodup) (hR : (report.volatility.map Prod.fst).Nodup) :
    (availableOf df report).Nodup := by
  simp only [availableOf, sanitize_tickers]
  split_ifs with h
  · exact hT
  · exact List.Nodup.filter _ (volSeries_keys_nodup df report hT hR)

lemma availableOf_subset (df : PriceTable) (report : RiskReport) :
    ∀ t ∈ availableOf df report, t ∈ df.tickers := by
  intro t ht
  simp only [availableOf, sanitize_tickers] at ht
  split_ifs at ht with h
  · exact ht
  · have hc := List.of_mem_filter ht
    simpa using hc

lemma availableOf_ne_nil (df : PriceTable) (report : RiskReport)
    (h : df.tickers ≠ []) : availableOf df report ≠ [] := by
  simp only [availableOf, sanitize_tickers]
  split_ifs with hf
  · exact h
  · intro hcon
    rw [hcon] at hf
    simp at hf

lemma volMap_keys (df : PriceTable) (report : RiskReport) :
    (volMap df report).map Prod.fst = availableOf df report := by
  unfold volMap
  rw [List.map_map]
  have hcomp : (Prod.fst ∘ fun t =>
      (t, (((volSeries df report).lookup t).join).getD 0)) = id := rfl
  rw [hcomp, List.map_id]

lemma rankedOf_keys_nodup (df : PriceTable) (report : RiskReport)
    (hT : df.tickers.Nodup) (hR : (report.volatility.map Prod.fst).Nodup) :
    ((rankedOf df report).map Prod.fst).Nodup := by
  have hperm := (List.perm_insertionSort volLe (volMap df report)).map Prod.fst
  rw [volMap_keys] at hperm
  exact hperm.nodup_iff.2 (availableOf_nodup df report hT hR)

lemma rankedOf_length (df : PriceTable) (report : RiskReport) :
    (rankedOf df report).length = (availableOf df report).length := by
  calc (rankedOf df report).length = (volMap df report).length :=
        (List.perm_insertionSort volLe (volMap df report)).length_eq
    _ = (availableOf df report).length := by
        unfold volMap
        rw [List.length_map]

lemma take_append_drop_sublist {α : Type} (l : List α) (a b : ℕ) (hab : a + b ≤ l.length) :
    (l.take a ++ l.drop (l.length - b)).Sublist l := by
  have h1 : (l.take a).Sublist (l.take (l.length - b)) := by
    have heq : l.take a = (l.take (l.length - b)).take a := by
      rw [List.take_take, min_eq_left (by omega)]
    rw [heq]
    exact List.take_sublist _ _
  have h2 := List.Sublist.append h1 (List.Sublist.refl (l.drop (l.length - b)))
  rwa [List.take_append_drop] at h2

/-- Claim C6: under any risk level other than `low`/`high` (the `moderate`
policy) the holdings are exactly the `n/2` lowest-volatility tickers followed
by the `n - n/2` highest-volatility tickers of the ascending ranking, with no
ticker selected twice (the two slices are disjoint because `n` never exceeds
the universe size), the allocation weights used are all equal to `1/n`, and
each stored weight is `1/n` rounded to 6 decimals. -/
theorem generate_portfolio_moderate_policy (top_n : ℕ) (budget : ℚ) (risk : String)
    (df : PriceTable) (report : RiskReport)
    (h1 : risk ≠ riskLow) (h2 : risk ≠ riskHigh)
    (hemp : df.isEmpty = false) (hn : 1 ≤ min top_n (rankedOf df report).length)
    (hT : df.tickers.Nodup) (hR : (report.volatility.map Prod.fst).Nodup) :
    (generate_portfolio top_n budget risk (some df) report).holdings.map Holding.ticker
      = ((rankedOf df report).take (min top_n (rankedOf df report).length / 2)).map Prod.fst
        ++ ((rankedOf df report).drop ((rankedOf df report).length
            - (min top_n (rankedOf df report).length
               - min top_n (rankedOf df report).length / 2))).map Prod.fst ∧
    ((generate_portfolio top_n budget risk (some df) report).holdings.map
        Holding.ticker).Nodup ∧
    (loopPairs top_n df report risk).map Prod.snd
      = List.replicate (min top_n (rankedOf df report).length)
          ((1 : ℚ) / ((min top_n (rankedOf df report).length : ℕ) : ℚ)) ∧
    (generate_portfolio top_n budget risk (some df) report).holdings.map Holding.weight
      = List.replicate (min top_n (rankedOf df report).length)
          (round6 ((1 : ℚ) / ((min top_n (rankedOf df report).length : ℕ) : ℚ))) := by
  have hn2 : min top_n (rankedOf df report).length ≤ (rankedOf df report).length :=
    min_le_right _ _
  have hcw := chooseWeights_other risk h1 h2 (rankedOf df report) _ hn hn2
  have hfst : (chooseWeights risk (rankedOf df report)
      (min top_n (rankedOf df report).length)).1
      = ((rankedOf df report).take (min top_n (rankedOf df report).length / 2)).map Prod.fst
        ++ ((rankedOf df report).drop ((rankedOf df report).length
            - (min top_n (rankedOf df report).length
               - min top_n (rankedOf df report).length / 2))).map Prod.fst := by
    rw [hcw]
  have hsnd : (chooseWeights risk (rankedOf df report)
      (min top_n (rankedOf df report).length)).2
      = List.replicate (min top_n (rankedOf df report).length)
          ((1 : ℚ) / ((min top_n (rankedOf df report).length : ℕ) : ℚ)) := by
    rw [hcw]
  refine ⟨?_, ?_, ?_, ?_⟩
  · rw [holdings_ticker_map top_n budget risk df report hemp hn, hfst]
  · rw [holdings_ticker_map top_n budget risk df report hemp hn, hfst, ← List.map_append]
    exact List.Nodup.sublist
      (List.Sublist.map Prod.fst
        (take_append_drop_sublist (rankedOf df report) _ _ (by omega)))
      (rankedOf_keys_nodup df report hT hR)
  · rw [loopPairs_snd top_n risk df report hn, hsnd]
  · rw [holdings_weight_map top_n budget risk df report hemp hn, hsnd, List.map_replicate]

/-- Concrete instantiation of `generate_portfolio_moderate_policy` at the
four-ticker table `wDf4` with `top_n = 4`: two low-volatility and two
high-volatility tickers, weight 1/4 each. -/
theorem generate_portfolio_moderate_policy_witness :
    "moderate" ≠ riskLow ∧ "moderate" ≠ riskHigh ∧
    wDf4.isEmpty = false ∧ 1 ≤ min 4 (rankedOf wDf4 wRpt4).length ∧
    wDf4.tickers.Nodup ∧ (wRpt4.volatility.map Prod.fst).Nodup ∧
    ((generate_portfolio 4 100 "moderate" (some wDf4) wRpt4).holdings.map Holding.ticker
       = ((rankedOf wDf4 wRpt4).take (min 4 (rankedOf wDf4 wRpt4).length / 2)).map Prod.fst
         ++ ((rankedOf wDf4 wRpt4).drop ((rankedOf wDf4 wRpt4).length
             - (min 4 (rankedOf wDf4 wRpt4).length
                - min 4 (rankedOf wDf4 wRpt4).length / 2))).map Prod.fst ∧
     ((generate_portfolio 4 100 "moderate" (some wDf4) wRpt4).holdings.map
         Holding.ticker).Nodup ∧
     (loopPairs 4 wDf4 wRpt4 "moderate").map Prod.snd
       = List.replicate (min 4 (rankedOf wDf4 wRpt4).length)
           ((1 : ℚ) / ((min 4 (rankedOf wDf4 wRpt4).length : ℕ) : ℚ)) ∧
     (generate_portfolio 4 100 "moderate" (some wDf4) wRpt4).holdings.map Holding.weight
       = List.replicate (min 4 (rankedOf wDf4 wRpt4).length)
           (round6 ((1 : ℚ) / ((min 4 (rankedOf wDf4 wRpt4).length : ℕ) : ℚ)))) :=
  ⟨by decide, by decide, by decide, by decide, by decide, by decide,
    generate_portfolio_moderate_policy 4 100 "moderate" wDf4 wRpt4
      (by decide) (by decide) (by decide) (by decide) (by decide) (by decide)⟩

lemma chooseWeights_fst_sublist (risk : String) (ranked : List (String × ℚ)) (n : ℕ)
    (hn1 : 1 ≤ n) (hn2 : n ≤ ranked.length) :
    (chooseWeights risk ranked n).1.Sublist (ranked.map Prod.fst) := by
  by_cases hl : risk = riskLow
  · subst hl
    rw [chooseWeights_low]
    show ((ranked.take n).map Prod.fst).Sublist (ranked.map Prod.fst)
    rw [List.map_take]
    exact List.take_sublist _ _
  · by_cases hh : risk = riskHigh
    · subst hh
      rw [chooseWeights_high]
      show ((ranked.drop (ranked.length - n)).map Prod.fst).Sublist (ranked.map Prod.fst)
      rw [List.map_drop]
      exact List.drop_sublist _ _
    · rw [chooseWeights_other risk hl hh ranked n hn1 hn2]
      show (((ranked.take (n / 2)).map Prod.fst)
          ++ ((ranked.drop (ranked.length - (n - n / 2))).map Prod.fst)).Sublist
          (ranked.map Prod.fst)
      rw [← List.map_append]
      exact (take_append_drop_sublist ranked _ _ (by omega)).map Prod.fst

/-- Claim C10: for every nonempty price table the holdings list has exactly
`min(top_n, universe size)` entries — the universe being the resolved ticker
list `availableOf` — with pairwise-distinct tickers, each of which is a column
of the table; with `top_n ≥ 1` the holdings list is never empty. -/
theorem generate_portfolio_holding_count (top_n : ℕ) (budget : ℚ) (risk : String)
    (df : PriceTable) (report : RiskReport)
    (hemp : df.isEmpty = false)
    (hT : df.tickers.Nodup) (hR : (report.volatility.map Prod.fst).Nodup) :
    (generate_portfolio top_n budget risk (some df) report).holdings.length
      = min top_n (availableOf df report).length ∧
    ((generate_portfolio top_n budget risk (some df) report).holdings.map
        Holding.ticker).Nodup ∧
    (∀ t ∈ (generate_portfolio top_n budget risk (some df) report).holdings.map
        Holding.ticker, t ∈ df.tickers) ∧
    (1 ≤ top_n → (generate_portfolio top_n budget risk (some df) report).holdings ≠ []) := by
  have hlen_eq : (rankedOf df report).length = (availableOf df report).length :=
    rankedOf_length df report
  have htick_ne : df.tickers ≠ [] := by
    unfold PriceTable.isEmpty at hemp
    intro hcon
    rw [hcon] at hemp
    simp at hemp
  have havail_len : 1 ≤ (availableOf df report).length :=
    List.length_pos.2 (availableOf_ne_nil df report htick_ne)
  by_cases hn0 : min top_n (rankedOf df report).length = 0
  · have htop : top_n = 0 := by omega
    have hport : generate_portfolio top_n budget risk (some df) report
        = errPortfolio budget msgNoTickers := by
      unfold generate_portfolio
      simp [hemp, hn0]
    rw [hport]
    refine ⟨by simp [errPortfolio, htop], by simp [errPortfolio],
      by simp [errPortfolio], ?_⟩
    intro h1
    rw [htop] at h1
    exact absurd h1 (by decide)
  · have hn : 1 ≤ min top_n (rankedOf df report).length := by omega
    have hn2 := min_le_right top_n (rankedOf df report).length
    have hs := chooseWeights_spec risk (rankedOf df report) _ hn hn2
    have htick := holdings_ticker_map top_n budget risk df report hemp hn
    have hlen : (generate_portfolio top_n budget risk (some df) report).holdings.length
        = min top_n (availableOf df report).length := by
      have hml : (generate_portfolio top_n budget risk (some df) report).holdings.length
          = ((generate_portfolio top_n budget risk (some df) report).holdings.map
              Holding.ticker).length := (List.length_map _ _).symm
      rw [hml, htick, hs.1, hlen_eq]
    refine ⟨hlen, ?_, ?_, ?_⟩
    · rw [htick]
      exact List.Nodup.sublist (chooseWeights_fst_sublist risk _ _ hn hn2)
        (rankedOf_keys_nodup df report hT hR)
    · intro t ht
      rw [htick] at ht
      have hmemr := (chooseWeights_fst_sublist risk _ _ hn hn2).subset ht
      have hperm := (List.perm_insertionSort volLe (volMap df report)).map Prod.fst
      rw [volMap_keys] at hperm
      exact availableOf_subset df report t (hperm.mem_iff.1 hmemr)
    · intro htop1 hcon
      rw [hcon] at hlen
      simp at hlen
      omega

/-- Concrete instantiation of `generate_portfolio_holding_count` at the
two-ticker table `wDf`. -/
theorem generate_portfolio_holding_count_witness :
    wDf.isEmpty = false ∧ wDf.tickers.Nodup ∧ (wRpt.volatility.map Prod.fst).Nodup ∧
    ((generate_portfolio 5 100 riskLow (some wDf) wRpt).holdings.length
       = min 5 (availableOf wDf wRpt).length ∧
     ((generate_portfolio 5 100 riskLow (some wDf) wRpt).holdings.map
         Holding.ticker).Nodup ∧
     (∀ t ∈ (generate_portfolio 5 100 riskLow (some wDf) wRpt).holdings.map
         Holding.ticker, t ∈ wDf.tickers) ∧
     (1 ≤ 5 → (generate_portfolio 5 100 riskLow (some wDf) wRpt).holdings ≠ [])) :=
  ⟨by decide, by decide, by decide,
    generate_portfolio_holding_count 5 100 riskLow wDf wRpt
      (by decide) (by decide) (by decide)⟩

lemma cntLT_add_cntEQ_le (vals : List ℚ) (v : ℚ) :
    cntLT vals v + cntEQ vals v ≤ vals.length := by
  unfold cntLT cntEQ
  induction vals with
  | nil => simp
  | cons x xs ih =>
    simp only [List.countP_cons, List.length_cons]
    have hd1 : (if decide (x < v) = true then 1 else 0) ≤ 1 := by
      split_ifs <;> omega
    have hd2 : (if decide (x = v) = true then 1 else 0) ≤ 1 := by
      split_ifs <;> omega
    have hdisj : (if decide (x < v) = true then 1 else 0)
        + (if decide (x = v) = true then 1 else 0) ≤ 1 := by
      by_cases h1 : x < v
      · have h2 : ¬(x = v) := ne_of_lt h1
        simp [h1, h2]
      · by_cases h2 : x = v
        · simp [h1, h2]
        · simp [h1, h2]
    omega

lemma cntEQ_pos (vals : List ℚ) (v : ℚ) (hv : v ∈ vals) : 1 ≤ cntEQ vals v := by
  unfold cntEQ
  exact List.countP_pos.2 ⟨v, hv, by simp⟩

lemma cntLT_add_cntEQ_le_cntLT (vals : List ℚ) {x y : ℚ} (hxy : x < y) :
    cntLT vals x + cntEQ vals x ≤ cntLT vals y := by
  unfold cntLT cntEQ
  induction vals with
  | nil => simp
  | cons z zs ih =>
    simp only [List.countP_cons]
    have hkey : (if decide (z < x) = true then 1 else 0)
        + (if decide (z = x) = true then 1 else 0)
        ≤ (if decide (z < y) = true then 1 else 0) := by
      by_cases h1 : z < x
      · have h2 : ¬(z = x) := ne_of_lt h1
        have h3 : z < y := lt_trans h1 hxy
        simp [h1, h2, h3]
      · by_cases h2 : z = x
        · have h3 : z < y := by rw [h2]; exact hxy
          simp [h1, h2, h3, hxy]
        · by_cases h3 : z < y
          · simp [h1, h2, h3]
          · simp [h1, h2, h3]
    omega

lemma rankAvg_pos (vals : List ℚ) (v : ℚ) : 0 < rankAvg vals v := by
  unfold rankAvg
  have h1 : (0 : ℚ) ≤ (cntLT vals v : ℚ) := Nat.cast_nonneg _
  have h2 : (0 : ℚ) ≤ (cntEQ vals v : ℚ) := Nat.cast_nonneg _
  linarith

lemma rankAvg_le_length (vals : List ℚ) (v : ℚ) (hv : v ∈ vals) :
    rankAvg vals v ≤ (vals.length : ℚ) := by
  unfold rankAvg
  have h1 : (cntLT vals v : ℚ) + (cntEQ vals v : ℚ) ≤ (vals.length : ℚ) := by
    exact_mod_cast cntLT_add_cntEQ_le vals v
  have h2 : (1 : ℚ) ≤ (cntEQ vals v : ℚ) := by exact_mod_cast cntEQ_pos vals v hv
  linarith

lemma rankAvg_mono (vals : List ℚ) {x y : ℚ} (h : x ≤ y) :
    rankAvg vals x ≤ rankAvg vals y := by
  rcases eq_or_lt_of_le h with rfl | hlt
  · exact le_refl _
  · unfold rankAvg
    have h1 : (cntLT vals x : ℚ) + (cntEQ vals x : ℚ) ≤ (cntLT vals y : ℚ) := by
      exact_mod_cast cntLT_add_cntEQ_le_cntLT vals hlt
    have h2 : (0 : ℚ) ≤ (cntEQ vals y : ℚ) := Nat.cast_nonneg _
    linarith

lemma assess_universe_risk_score_def (df : PriceTable) :
    (assess_universe df).risk_score
      = (assess_universe df).volatility.map
          (fun tv => (tv.1, rankAvg ((assess_universe df).volatility.map Prod.snd) tv.2
            / ((assess_universe df).volatility.length : ℚ))) := rfl

lemma assess_universe_vol_length (df : PriceTable) :
    (assess_universe df).volatility.length = df.tickers.length := by
  show ((volRawOf df).map _).length = _
  rw [List.length_map]
  simp only [volRawOf]
  rw [List.length_map, List.enum_length]

/-- Claim C7: for every price table with at least one ticker, the `risk_score`
mapping of `assess_universe` assigns each ticker its ascending (average-tie)
rank among the NaN-coerced volatilities divided by the ticker count; every
score lies in (0, 1]; scores are monotonically non-decreasing in volatility;
and tickers with equal volatility receive the same score.  (Volatility is
represented by its order-isomorphic squared embedding, which leaves every rank
unchanged.) -/
theorem assess_universe_risk_score_spec (df : PriceTable) (hne : df.tickers ≠ []) :
    (assess_universe df).risk_score
      = (assess_universe df).volatility.map
          (fun tv => (tv.1, rankAvg ((assess_universe df).volatility.map Prod.snd) tv.2
            / (df.tickers.length : ℚ))) ∧
    (∀ ts ∈ (assess_universe df).risk_score, 0 < ts.2 ∧ ts.2 ≤ 1) ∧
    (∀ a ∈ (assess_universe df).volatility, ∀ b ∈ (assess_universe df).volatility,
      a.2 ≤ b.2 →
        rankAvg ((assess_universe df).volatility.map Prod.snd) a.2
            / (df.tickers.length : ℚ)
          ≤ rankAvg ((assess_universe df).volatility.map Prod.snd) b.2
            / (df.tickers.length : ℚ)) ∧
    (∀ a ∈ (assess_universe df).volatility, ∀ b ∈ (assess_universe df).volatility,
      a.2 = b.2 →
        rankAvg ((assess_universe df).volatility.map Prod.snd) a.2
            / (df.tickers.length : ℚ)
          = rankAvg ((assess_universe df).volatility.map Prod.snd) b.2
            / (df.tickers.length : ℚ)) := by
  have hvl := assess_universe_vol_length df
  have hlq : (0 : ℚ) < (df.tickers.length : ℚ) := by
    exact_mod_cast List.length_pos.2 hne
  refine ⟨?_, ?_, ?_, ?_⟩
  · rw [assess_universe_risk_score_def, hvl]
  · intro ts hts
    rw [assess_universe_risk_score_def, hvl] at hts
    rcases List.mem_map.1 hts with ⟨tv, htv, rfl⟩
    constructor
    · exact div_pos (rankAvg_pos _ _) hlq
    · rw [div_le_one hlq]
      have hmem : tv.2 ∈ (assess_universe df).volatility.map Prod.snd :=
        List.mem_map_of_mem Prod.snd htv
      have hr := rankAvg_le_length ((assess_universe df).volatility.map Prod.snd)
        tv.2 hmem
      rw [List.length_map, hvl] at hr
      exact hr
  · intro a _ b _ hab
    gcongr
    exact rankAvg_mono _ hab
  · intro a _ b _ hab
    rw [hab]

/-- Concrete instantiation of `assess_universe_risk_score_spec` at the
two-ticker table `wDf`. -/
theorem assess_universe_risk_score_spec_witness :
    wDf.tickers ≠ [] ∧
    ((assess_universe wDf).risk_score
       = (assess_universe wDf).volatility.map
           (fun tv => (tv.1, rankAvg ((assess_universe wDf).volatility.map Prod.snd) tv.2
             / (wDf.tickers.length : ℚ))) ∧
     (∀ ts ∈ (assess_universe wDf).risk_score, 0 < ts.2 ∧ ts.2 ≤ 1) ∧
     (∀ a ∈ (assess_universe wDf).volatility, ∀ b ∈ (assess_universe wDf).volatility,
       a.2 ≤ b.2 →
         rankAvg ((assess_universe wDf).volatility.map Prod.snd) a.2
             / (wDf.tickers.length : ℚ)
           ≤ rankAvg ((assess_universe wDf).volatility.map Prod.snd) b.2
             / (wDf.tickers.length : ℚ)) ∧
     (∀ a ∈ (assess_universe wDf).volatility, ∀ b ∈ (assess_universe wDf).volatility,
       a.2 = b.2 →
         rankAvg ((assess_universe wDf).volatility.map Prod.snd) a.2
             / (wDf.tickers.length : ℚ)
           = rankAvg ((assess_universe wDf).volatility.map Prod.snd) b.2
             / (wDf.tickers.length : ℚ))) :=
  ⟨by decide, assess_universe_risk_score_spec wDf (by decide)⟩

lemma annVolSq_getD_nonneg (rets : List ℚ) : 0 ≤ (annVolSq rets).getD 0 := by
  unfold annVolSq
  split_ifs with h
  · simp
  · simp only [Option.getD_some]
    have := sampleVar_nonneg rets (by omega)
    linarith

lemma cummaxFrom_zip_le (m : ℚ) (xs : List ℚ) :
    ∀ pm ∈ xs.zip (cummaxFrom m xs), pm.1 ≤ pm.2 := by
  induction xs generalizing m with
  | nil => simp
  | cons x xs ih =>
    intro pm hpm
    simp only [cummaxFrom, List.zip_cons_cons] at hpm
    rcases List.mem_cons.1 hpm with rfl | h
    · exact le_max_right m x
    · exact ih (max m x) pm h

lemma cummax_zip_le (s : List ℚ) : ∀ pm ∈ s.zip (cummax s), pm.1 ≤ pm.2 := by
  cases s with
  | nil => simp
  | cons q s2 =>
    intro pm hpm
    simp only [cummax, List.zip_cons_cons] at hpm
    rcases List.mem_cons.1 hpm with rfl | h
    · exact le_refl q
    · exact cummaxFrom_zip_le q s2 pm h

lemma foldl_min_mem (xs : List ℚ) (x : ℚ) : xs.foldl min x ∈ x :: xs := by
  induction xs generalizing x with
  | nil => simp
  | cons y ys ih =>
    simp only [List.foldl_cons]
    have h := ih (min x y)
    rcases List.mem_cons.1 h with h1 | h1
    · rw [h1]
      rcases le_total x y with hxy | hxy
      · rw [min_eq_left hxy]
        exact List.mem_cons_self _ _
      · rw [min_eq_right hxy]
        exact List.mem_cons_of_mem _ (List.mem_cons_self _ _)
    · exact List.mem_cons_of_mem _ (List.mem_cons_of_mem _ h1)

lemma listMin_spec (l : List ℚ) (hne : l ≠ []) (h : ∀ d ∈ l, -1 ≤ d ∧ d ≤ 0) :
    ∃ d, listMin l = some d ∧ -1 ≤ d ∧ d ≤ 0 := by
  cases l with
  | nil => exact absurd rfl hne
  | cons x xs => exact ⟨xs.foldl min x, rfl, h _ (foldl_min_mem xs x)⟩

lemma maxDrawdown_bounds (c : List (Option ℚ))
    (hc : ∀ x ∈ c, ∃ q, x = some q ∧ 0 < q) (hne : c ≠ []) :
    ∃ d, maxDrawdown c = some d ∧ -1 ≤ d ∧ d ≤ 0 := by
  have hs_pos : ∀ q ∈ c.filterMap id, 0 < q := by
    intro q hq
    rcases List.mem_filterMap.1 hq with ⟨x, hx, hxq⟩
    rcases hc x hx with ⟨q2, rfl, hq2⟩
    simp only [id] at hxq
    rcases Option.some_inj.1 hxq
    exact hq2
  have hs_ne : c.filterMap id ≠ [] := by
    cases c with
    | nil => exact absurd rfl hne
    | cons x cs =>
      rcases hc x (List.mem_cons_self _ _) with ⟨q, rfl, _⟩
      simp [List.filterMap_cons]
  have hzip : ∀ pm ∈ (c.filterMap id).zip (cummax (c.filterMap id)),
      pm.1 ≤ pm.2 ∧ 0 < pm.1 ∧ 0 < pm.2 := by
    rintro ⟨p, m⟩ hpm
    have h1 := cummax_zip_le (c.filterMap id) ⟨p, m⟩ hpm
    have h2 := hs_pos p (List.of_mem_zip hpm).1
    exact ⟨h1, h2, lt_of_lt_of_le h2 h1⟩
  have hdd_mem : ∀ d ∈ ((c.filterMap id).zip (cummax (c.filterMap id))).filterMap
      (fun pm => if pm.2 = 0 then none else some ((pm.1 - pm.2) / pm.2)),
      -1 ≤ d ∧ d ≤ 0 := by
    intro d hd
    rcases List.mem_filterMap.1 hd with ⟨pm, hpm, heq⟩
    rcases hzip pm hpm with ⟨hle, hp, hm⟩
    rw [if_neg (ne_of_gt hm)] at heq
    rcases Option.some_inj.1 heq
    constructor
    · rw [neg_le, ← neg_div, div_le_one hm]
      linarith
    · rw [div_nonpos_iff]
      right
      constructor
      · linarith
      · linarith
  have hdd_ne : ((c.filterMap id).zip (cummax (c.filterMap id))).filterMap
      (fun pm => if pm.2 = 0 then none else some ((pm.1 - pm.2) / pm.2)) ≠ [] := by
    obtain ⟨q, s2, hs⟩ := List.exists_cons_of_ne_nil hs_ne
    rw [hs]
    have hq : 0 < q := by
      apply hs_pos
      rw [hs]
      exact List.mem_cons_self _ _
    simp only [cummax, List.zip_cons_cons, List.filterMap_cons, if_neg (ne_of_gt hq)]
    exact List.cons_ne_nil _ _
  have hmd : maxDrawdown c = listMin
      (((c.filterMap id).zip (cummax (c.filterMap id))).filterMap
        (fun pm => if pm.2 = 0 then none else some ((pm.1 - pm.2) / pm.2))) := by
    unfold maxDrawdown
    rw [if_neg (by rw [isEmpty_false_of_ne_nil hs_ne]; exact Bool.false_ne_true)]
  rw [hmd]
  exact listMin_spec _ hdd_ne hdd_mem

/-- Claim C8 (amended): for every aligned price table with at least 2 dates
whose prices are all present and positive, `assess_universe` reports for every
ticker a volatility ≥ 0 (the annualized standard deviation of daily returns,
NaN coerced to 0, represented here by its order-isomorphic square) and a
defined maximum drawdown lying in [-1, 0]. -/
theorem assess_universe_bounds (df : PriceTable)
    (hal : df.Aligned) (hpos : df.Positive) (hrows : 2 ≤ df.rows.length) :
    (∀ tv ∈ (assess_universe df).volatility, 0 ≤ tv.2) ∧
    (∀ td ∈ (assess_universe df).drawdown,
      ∃ d, td.2 = some d ∧ -1 ≤ d ∧ d ≤ 0) := by
  constructor
  · intro tv htv
    have hvol : (assess_universe df).volatility
        = (volRawOf df).map (fun tv => (tv.1, tv.2.getD 0)) := rfl
    rw [hvol] at htv
    rcases List.mem_map.1 htv with ⟨tv0, htv0, rfl⟩
    simp only [volRawOf, List.mem_map] at htv0
    rcases htv0 with ⟨jt, _, rfl⟩
    exact annVolSq_getD_nonneg _
  · intro td htd
    have hdd : (assess_universe df).drawdown
        = df.tickers.enum.map (fun jt => (jt.2, maxDrawdown (df.col jt.1))) := rfl
    rw [hdd] at htd
    rcases List.mem_map.1 htd with ⟨jt, hjt, rfl⟩
    have hj : jt.1 < df.tickers.length := by
      rcases jt with ⟨j, t⟩
      rw [List.enum_eq_zip_range] at hjt
      have := (List.of_mem_zip hjt).1
      simpa using this
    apply maxDrawdown_bounds
    · intro x hx
      simp only [PriceTable.col, List.mem_map] at hx
      rcases hx with ⟨r, hr, rfl⟩
      have hlen : r.length = df.tickers.length := hal r hr
      have hjr : jt.1 < r.length := by omega
      have hmem : r.getD jt.1 none ∈ r := by
        rw [List.getD_eq_getElem r none hjr]
        exact List.getElem_mem hjr
      exact hpos r hr _ hmem
    · simp only [PriceTable.col]
      intro hcon
      have hlen : df.rows.length = 0 := by
        simpa using congrArg List.length hcon
      omega

/-- Counterexample to claim C8 as stated: the table `negDf` satisfies every
PriceTable invariant of the specification (aligned axes, 2 dates, 1 ticker, no
missing cells) yet `assess_universe` reports a maximum drawdown of -2, outside
[-1, 0] — the source formula `(price - rollingMax)/rollingMax` falls below -1
as soon as a price turns negative. -/
theorem assess_universe_drawdown_out_of_range :
    negDf.Aligned ∧ 2 ≤ negDf.rows.length ∧ negDf.tickers.length = 1 ∧
    (assess_universe negDf).drawdown = [("A", some (-2))] ∧
    ¬(-1 ≤ (-2 : ℚ)) := by
  refine ⟨by intro r hr; fin_cases hr <;> rfl, by decide, by decide, ?_, by norm_num⟩
  show negDf.tickers.enum.map (fun jt => (jt.2, maxDrawdown (negDf.col jt.1)))
      = [("A", some (-2))]
  have hcol : negDf.col 0 = [some 1, some (-1)] := rfl
  have henum : negDf.tickers.enum = [(0, "A")] := rfl
  rw [henum]
  simp only [List.map_cons, List.map_nil, hcol]
  have hmd : maxDrawdown [some 1, some (-1)] = some (-2) := by
    have hfm : ([some 1, some (-1)] : List (Option ℚ)).filterMap id = [1, -1] := rfl
    have hmax : max (1 : ℚ) (-1) = 1 := max_eq_left (by norm_num)
    unfold maxDrawdown
    rw [hfm]
    rw [if_neg (by simp)]
    simp only [cummax, cummaxFrom, hmax, List.zip_cons_cons, List.zip_nil_right,
      List.filterMap_cons, List.filterMap_nil]
    norm_num [listMin]
  rw [hmd]

/-- Concrete instantiation of `assess_universe_bounds` at the positive-price
table `wDf`. -/
theorem assess_universe_bounds_witness :
    wDf.Aligned ∧ wDf.Positive ∧ 2 ≤ wDf.rows.length ∧
    ((∀ tv ∈ (assess_universe wDf).volatility, 0 ≤ tv.2) ∧
     (∀ td ∈ (assess_universe wDf).drawdown,
       ∃ d, td.2 = some d ∧ -1 ≤ d ∧ d ≤ 0)) :=
  have hpos : wDf.Positive := by
    intro r hr c hc
    fin_cases hr <;> fin_cases hc <;> exact ⟨_, rfl, by norm_num⟩
  have hal : wDf.Aligned := by
    intro r hr
    fin_cases hr <;> rfl
  ⟨hal, hpos, by decide, assess_universe_bounds wDf hal hpos (by decide)⟩
